import Mathlib

/-!
Verification of the heat-equation solver core (`heat_equation_solver.cpp` /
`heat_equation_solver.hpp`, namespace `ensiie`) against its natural-language
specification.

The C++ code works on IEEE doubles; the shallow embedding models the real
arithmetic exactly over `ℚ`.  Temperature and source buffers (`std::vector<double>`)
are modelled as total functions `ℕ → ℚ`; only indices below `n` (resp. `n*n`)
are meaningful, exactly as in the C++ vectors.  All definitions are direct
transcriptions of the source; definitions whose doc comment says
"Spec formulation" are instead transcribed from the spec's wording, to be
compared with the source transcription.
-/

namespace Ensiie

/-- Material from `material.hpp`: physical constants λ, ρ, c and a name. -/
structure Material where
  name : String
  lambda : ℚ
  rho : ℚ
  c : ℚ

/-- Thermal diffusivity `alpha() = lambda / (rho * c)` from `material.hpp`. -/
def Material.alpha (m : Material) : ℚ := m.lambda / (m.rho * m.c)

/-- Predefined material `Materials::COPPER` from `material.hpp`. -/
def COPPER : Material := { name := "Cuivre", lambda := 389, rho := 8940, c := 380 }

/-- Conversion from Celsius to Kelvin (`KELVIN_OFFSET = 273.15`). -/
def KELVIN_OFFSET : ℚ := 27315 / 100

/-- State of `HeatEquationSolver1D`: the stored parameters, the current time
`t`, the temperature buffer `u` and the source buffer `F` (vectors of length
`n`, modelled as functions). -/
structure Solver1D where
  mat : Material
  L : ℚ
  tmax : ℚ
  dx : ℚ
  dt : ℚ
  u0_kelvin : ℚ
  t : ℚ
  n : ℕ
  u : ℕ → ℚ
  F : ℕ → ℚ

/-- Source initialisation `HeatEquationSolver1D::init_source`: value written
into `F_[i]`.  The bands use inclusive bounds, first band `[L/10, 2L/10]` with
`f1 * scale`, second band `[5L/10, 6L/10]` with `f2 * scale`, `scale = 100`. -/
def initSource1D (Lv tmaxv dxv f : ℚ) (i : ℕ) : ℚ :=
  let f1 := tmaxv * f * f
  let f2 := 3/4 * tmaxv * f * f
  let x := (i : ℚ) * dxv
  if Lv / 10 ≤ x ∧ x ≤ 2 * Lv / 10 then f1 * 100
  else if 5 * Lv / 10 ≤ x ∧ x ≤ 6 * Lv / 10 then f2 * 100
  else 0

/-- Constructor `HeatEquationSolver1D::HeatEquationSolver1D`: stores the
parameters, sets `dx = L/(n-1)`, `dt = tmax/1000`, `u0_kelvin = u0 + 273.15`,
`t = 0`, fills `u` with `u0_kelvin` and computes the source field.  No
validation of the arguments is performed (faithful to the code). -/
def mk1D (mat : Material) (L tmax u0 f : ℚ) (n : ℕ) : Solver1D :=
  let dx := L / ((n : ℚ) - 1)
  let u0k := u0 + KELVIN_OFFSET
  { mat := mat, L := L, tmax := tmax, dx := dx, dt := tmax / 1000,
    u0_kelvin := u0k, t := 0, n := n,
    u := fun _ => u0k,
    F := fun i => initSource1D L tmax dx f i }

/-- Forward-elimination coefficients `c_prime` of
`HeatEquationSolver1D::solve_tridiagonal` (Thomas algorithm). -/
def cp (a b c : ℕ → ℚ) : ℕ → ℚ
  | 0 => c 0 / b 0
  | i + 1 => c (i + 1) / (b (i + 1) - a (i + 1) * cp a b c i)

/-- Forward-elimination coefficients `d_prime` of
`HeatEquationSolver1D::solve_tridiagonal` (Thomas algorithm). -/
def dp (a b c d : ℕ → ℚ) : ℕ → ℚ
  | 0 => d 0 / b 0
  | i + 1 => (d (i + 1) - a (i + 1) * dp a b c d i) /
      (b (i + 1) - a (i + 1) * cp a b c i)

/-- Back substitution of `solve_tridiagonal`, indexed by distance from the
last row: `backSub 0 = x[n-1]`, `backSub (k+1) = x[n-1-(k+1)]`. -/
def backSub (a b c d : ℕ → ℚ) (n : ℕ) : ℕ → ℚ
  | 0 => dp a b c d (n - 1)
  | k + 1 => dp a b c d (n - 1 - (k + 1)) -
      cp a b c (n - 1 - (k + 1)) * backSub a b c d n k

/-- Solution entry `x[i]` produced by `HeatEquationSolver1D::solve_tridiagonal`
on the system `(a, b, c, d)` of size `n`. -/
def thomas (a b c d : ℕ → ℚ) (n i : ℕ) : ℚ := backSub a b c d n (n - 1 - i)

/-- Sub-diagonal built by `HeatEquationSolver1D::step`: `-r` everywhere, then
`a[n-1] = 0` for the Dirichlet row. -/
def av (r : ℚ) (n : ℕ) : ℕ → ℚ := fun i => if i = n - 1 then 0 else -r

/-- Main diagonal built by `HeatEquationSolver1D::step`: `1+2r` everywhere,
then `b[0] = 1+r` (Neumann row) and `b[n-1] = 1` (Dirichlet row, applied
last). -/
def bv (r : ℚ) (n : ℕ) : ℕ → ℚ := fun i =>
  if i = n - 1 then 1 else if i = 0 then 1 + r else 1 + 2 * r

/-- Super-diagonal built by `HeatEquationSolver1D::step`: `-r` everywhere,
then `c[n-1] = 0` for the Dirichlet row. -/
def cv (r : ℚ) (n : ℕ) : ℕ → ℚ := fun i => if i = n - 1 then 0 else -r

/-- Right-hand side built by `HeatEquationSolver1D::step`:
`d[i] = u[i] + coef * F[i]`, then `d[n-1] = u0_kelvin` (Dirichlet row). -/
def dvec (coef u0k : ℚ) (n : ℕ) (u F : ℕ → ℚ) : ℕ → ℚ := fun i =>
  if i = n - 1 then u0k else u i + coef * F i

/-- One time step of `HeatEquationSolver1D::step`: returns `false` leaving the
state untouched when `t >= tmax`; otherwise builds the tridiagonal system,
solves it with the Thomas algorithm, commits the solution and advances `t`. -/
def step1D (s : Solver1D) : Bool × Solver1D :=
  if s.tmax ≤ s.t then (false, s)
  else
    let r := s.mat.alpha * s.dt / (s.dx * s.dx)
    let coef := s.dt / (s.mat.rho * s.mat.c)
    let a := av r s.n
    let b := bv r s.n
    let c := cv r s.n
    let d := dvec coef s.u0_kelvin s.n s.u s.F
    (true, { s with u := fun i => thomas a b c d s.n i, t := s.t + s.dt })

/-- Iterated stepping of the 1D solver (driver loop): `iter1D s k` is the
state after `k` calls of `step()` starting from `s`. -/
def iter1D (s : Solver1D) : ℕ → Solver1D
  | 0 => s
  | k + 1 => (step1D (iter1D s k)).2

/-- Reset `HeatEquationSolver1D::reset`: `t = 0` and the field refilled with
the uniform initial Kelvin temperature; the source field is not touched. -/
def reset1D (s : Solver1D) : Solver1D :=
  { s with t := 0, u := fun _ => s.u0_kelvin }

/-- State of `HeatEquationSolver2D`: like `Solver1D`, with the temperature
and source buffers flattened row-major (length `n*n`). -/
structure Solver2D where
  mat : Material
  L : ℚ
  tmax : ℚ
  dx : ℚ
  dt : ℚ
  u0_kelvin : ℚ
  t : ℚ
  n : ℕ
  u : ℕ → ℚ
  F : ℕ → ℚ

/-- Flattening `HeatEquationSolver2D::idx`: `idx(i,j) = j*n + i`. -/
def idx (n i j : ℕ) : ℕ := j * n + i

/-- Source value written by `HeatEquationSolver2D::init_source` at grid point
`(i, j)`: four axis-aligned squares with inclusive bounds, all carrying
`f_val * scale` with `f_val = tmax * f * f` and `scale = 100`. -/
def srcVal2D (Lv tmaxv dxv f : ℚ) (i j : ℕ) : ℚ :=
  let f_val := tmaxv * f * f
  let x := (i : ℚ) * dxv
  let y := (j : ℚ) * dxv
  if (Lv / 6 ≤ x ∧ x ≤ 2 * Lv / 6 ∧ Lv / 6 ≤ y ∧ y ≤ 2 * Lv / 6) ∨
     (4 * Lv / 6 ≤ x ∧ x ≤ 5 * Lv / 6 ∧ Lv / 6 ≤ y ∧ y ≤ 2 * Lv / 6) ∨
     (Lv / 6 ≤ x ∧ x ≤ 2 * Lv / 6 ∧ 4 * Lv / 6 ≤ y ∧ y ≤ 5 * Lv / 6) ∨
     (4 * Lv / 6 ≤ x ∧ x ≤ 5 * Lv / 6 ∧ 4 * Lv / 6 ≤ y ∧ y ≤ 5 * Lv / 6)
  then f_val * 100 else 0

/-- Constructor `HeatEquationSolver2D::HeatEquationSolver2D`; the flattened
source buffer holds `srcVal2D` at `(k % n, k / n)`, i.e. at `(i, j)` for
`k = idx(i,j)`.  No validation of the arguments is performed. -/
def mk2D (mat : Material) (L tmax u0 f : ℚ) (n : ℕ) : Solver2D :=
  let dx := L / ((n : ℚ) - 1)
  let u0k := u0 + KELVIN_OFFSET
  { mat := mat, L := L, tmax := tmax, dx := dx, dt := tmax / 1000,
    u0_kelvin := u0k, t := 0, n := n,
    u := fun _ => u0k,
    F := fun k => srcVal2D L tmax dx f (k % n) (k / n) }

/-- Pointwise functional update, modelling a write `buf[k] = v` into the
working vector `u_new`. -/
def upd (g : ℕ → ℚ) (k : ℕ) (v : ℚ) : ℕ → ℚ := fun m => if m = k then v else g m

/-- Parameters of one Gauss-Seidel relaxation inside
`HeatEquationSolver2D::step`: grid size, Kelvin reference, diffusion number
`r`, source coefficient, previous time level `uold` and source `F`. -/
structure GS where
  n : ℕ
  u0k : ℚ
  r : ℚ
  coef : ℚ
  uold : ℕ → ℚ
  F : ℕ → ℚ

/-- Body of the innermost loop of `HeatEquationSolver2D::step` at point
`(i, j)`: Dirichlet points are pinned to `u0k` (no contribution to
`max_diff`); other points are relaxed from the partially updated buffer, with
the mirror substitution at `i = 0` and `j = 0`, and `max_diff` is updated. -/
def pointUp (g : GS) (bm : (ℕ → ℚ) × ℚ) (i j : ℕ) : (ℕ → ℚ) × ℚ :=
  if i = g.n - 1 ∨ j = g.n - 1 then (upd bm.1 (idx g.n i j) g.u0k, bm.2)
  else
    let old := bm.1 (idx g.n i j)
    let ul := if 0 < i then bm.1 (idx g.n (i - 1) j) else bm.1 (idx g.n 1 j)
    let ur := bm.1 (idx g.n (i + 1) j)
    let ud := if 0 < j then bm.1 (idx g.n i (j - 1)) else bm.1 (idx g.n i 1)
    let uu := bm.1 (idx g.n i (j + 1))
    let rhs := g.uold (idx g.n i j) + g.coef * g.F (idx g.n i j)
    let nv := (rhs + g.r * (ul + ur + ud + uu)) / (1 + 4 * g.r)
    (upd bm.1 (idx g.n i j) nv, max bm.2 (abs (nv - old)))

/-- Inner loop over `i` of one sweep: `rowStep g j bm k` processes the points
`(0, j), ..., (k-1, j)` in increasing order of `i`. -/
def rowStep (g : GS) (j : ℕ) : (ℕ → ℚ) × ℚ → ℕ → (ℕ → ℚ) × ℚ
  | bm, 0 => bm
  | bm, k + 1 => pointUp g (rowStep g j bm k) k j

/-- Outer loop over `j` of one sweep: `colStep g bm k` processes the rows
`0, ..., k-1` in increasing order of `j`, each row fully. -/
def colStep (g : GS) : (ℕ → ℚ) × ℚ → ℕ → (ℕ → ℚ) × ℚ
  | bm, 0 => bm
  | bm, k + 1 => rowStep g k (colStep g bm k) g.n

/-- One full Gauss-Seidel sweep over the grid, starting with `max_diff = 0`;
returns the updated buffer and the maximum absolute per-point change. -/
def sweep (g : GS) (buf : ℕ → ℚ) : (ℕ → ℚ) × ℚ := colStep g (buf, 0) g.n

/-- Gauss-Seidel tolerance `tol = 1e-6` of `HeatEquationSolver2D::step`. -/
def gsTol : ℚ := 1 / 1000000

/-- Iteration loop of `HeatEquationSolver2D::step`: up to `k` sweeps, stopping
early as soon as a sweep's `max_diff` drops below `tol`.  The code runs it
with `k = max_iter = 100`. -/
def gsLoop (g : GS) : ℕ → (ℕ → ℚ) → ℕ → ℚ
  | 0, buf => buf
  | k + 1, buf =>
    let bm := sweep g buf
    if bm.2 < gsTol then bm.1 else gsLoop g k bm.1

/-- Relaxation parameters built at the top of `HeatEquationSolver2D::step`:
`r = alpha * dt / (dx*dx)` and `src_coef = dt / (rho * c)`. -/
def mkGS (s : Solver2D) : GS :=
  { n := s.n, u0k := s.u0_kelvin,
    r := s.mat.alpha * s.dt / (s.dx * s.dx),
    coef := s.dt / (s.mat.rho * s.mat.c),
    uold := s.u, F := s.F }

/-- One time step of `HeatEquationSolver2D::step`: `false` leaving the state
untouched when `t >= tmax`; otherwise relax a working copy of the field with
at most 100 Gauss-Seidel sweeps, commit it, and advance `t`. -/
def step2D (s : Solver2D) : Bool × Solver2D :=
  if s.tmax ≤ s.t then (false, s)
  else (true, { s with u := gsLoop (mkGS s) 100 s.u, t := s.t + s.dt })

/-- Iterated stepping of the 2D solver. -/
def iter2D (s : Solver2D) : ℕ → Solver2D
  | 0 => s
  | k + 1 => (step2D (iter2D s k)).2

/-- Reset `HeatEquationSolver2D::reset`. -/
def reset2D (s : Solver2D) : Solver2D :=
  { s with t := 0, u := fun _ => s.u0_kelvin }

/-- Point accessor `HeatEquationSolver2D::get_temperature(i, j)`. -/
def getTemperature (s : Solver2D) (i j : ℕ) : ℚ := s.u (idx s.n i j)

/-- Materialised view `HeatEquationSolver2D::get_temperature_2d`:
`result[j][i] = u_[idx(i, j)]`. -/
def getTemperature2d (s : Solver2D) : List (List ℚ) :=
  (List.range s.n).map fun j => (List.range s.n).map fun i => s.u (idx s.n i j)

/-! Basic unfolding and preservation lemmas for the stepping functions. -/

/-- Unfolded form of `step1D`. -/
lemma step1D_eq (s : Solver1D) :
    step1D s = if s.tmax ≤ s.t then (false, s)
    else (true, { s with
      u := fun i => thomas (av (s.mat.alpha * s.dt / (s.dx * s.dx)) s.n)
        (bv (s.mat.alpha * s.dt / (s.dx * s.dx)) s.n)
        (cv (s.mat.alpha * s.dt / (s.dx * s.dx)) s.n)
        (dvec (s.dt / (s.mat.rho * s.mat.c)) s.u0_kelvin s.n s.u s.F) s.n i,
      t := s.t + s.dt }) := rfl

/-- Unfolded form of `step2D`. -/
lemma step2D_eq (s : Solver2D) :
    step2D s = if s.tmax ≤ s.t then (false, s)
    else (true, { s with u := gsLoop (mkGS s) 100 s.u, t := s.t + s.dt }) := rfl

/-- A 1D step never changes the stored parameters or the source field. -/
lemma step1D_pres (s : Solver1D) :
    (step1D s).2.mat = s.mat ∧ (step1D s).2.L = s.L ∧ (step1D s).2.tmax = s.tmax ∧
    (step1D s).2.dx = s.dx ∧ (step1D s).2.dt = s.dt ∧
    (step1D s).2.u0_kelvin = s.u0_kelvin ∧ (step1D s).2.n = s.n ∧
    (step1D s).2.F = s.F := by
  rw [step1D_eq]
  split <;> exact ⟨rfl, rfl, rfl, rfl, rfl, rfl, rfl, rfl⟩

/-- A 2D step never changes the stored parameters or the source field. -/
lemma step2D_pres (s : Solver2D) :
    (step2D s).2.mat = s.mat ∧ (step2D s).2.L = s.L ∧ (step2D s).2.tmax = s.tmax ∧
    (step2D s).2.dx = s.dx ∧ (step2D s).2.dt = s.dt ∧
    (step2D s).2.u0_kelvin = s.u0_kelvin ∧ (step2D s).2.n = s.n ∧
    (step2D s).2.F = s.F := by
  rw [step2D_eq]
  split <;> exact ⟨rfl, rfl, rfl, rfl, rfl, rfl, rfl, rfl⟩

/-- Iterated 1D stepping never changes the stored parameters or the source. -/
lemma iter1D_pres (s : Solver1D) (k : ℕ) :
    (iter1D s k).mat = s.mat ∧ (iter1D s k).L = s.L ∧ (iter1D s k).tmax = s.tmax ∧
    (iter1D s k).dx = s.dx ∧ (iter1D s k).dt = s.dt ∧
    (iter1D s k).u0_kelvin = s.u0_kelvin ∧ (iter1D s k).n = s.n ∧
    (iter1D s k).F = s.F := by
  induction k with
  | zero => exact ⟨rfl, rfl, rfl, rfl, rfl, rfl, rfl, rfl⟩
  | succ k ih =>
    obtain ⟨h1, h2, h3, h4, h5, h6, h7, h8⟩ := ih
    obtain ⟨g1, g2, g3, g4, g5, g6, g7, g8⟩ := step1D_pres (iter1D s k)
    exact ⟨g1.trans h1, g2.trans h2, g3.trans h3, g4.trans h4,
      g5.trans h5, g6.trans h6, g7.trans h7, g8.trans h8⟩

/-- Iterated 2D stepping never changes the stored parameters or the source. -/
lemma iter2D_pres (s : Solver2D) (k : ℕ) :
    (iter2D s k).mat = s.mat ∧ (iter2D s k).L = s.L ∧ (iter2D s k).tmax = s.tmax ∧
    (iter2D s k).dx = s.dx ∧ (iter2D s k).dt = s.dt ∧
    (iter2D s k).u0_kelvin = s.u0_kelvin ∧ (iter2D s k).n = s.n ∧
    (iter2D s k).F = s.F := by
  induction k with
  | zero => exact ⟨rfl, rfl, rfl, rfl, rfl, rfl, rfl, rfl⟩
  | succ k ih =>
    obtain ⟨h1, h2, h3, h4, h5, h6, h7, h8⟩ := ih
    obtain ⟨g1, g2, g3, g4, g5, g6, g7, g8⟩ := step2D_pres (iter2D s k)
    exact ⟨g1.trans h1, g2.trans h2, g3.trans h3, g4.trans h4,
      g5.trans h5, g6.trans h6, g7.trans h7, g8.trans h8⟩

/-- A finished 1D solver is left untouched and reports `false`. -/
lemma step1D_done (s : Solver1D) (h : s.tmax ≤ s.t) : step1D s = (false, s) := by
  rw [step1D_eq, if_pos h]

/-- A finished 2D solver is left untouched and reports `false`. -/
lemma step2D_done (s : Solver2D) (h : s.tmax ≤ s.t) : step2D s = (false, s) := by
  rw [step2D_eq, if_pos h]

/-- An unfinished 1D solver steps successfully and advances `t` by `dt`. -/
lemma step1D_run (s : Solver1D) (h : s.t < s.tmax) :
    (step1D s).1 = true ∧ (step1D s).2.t = s.t + s.dt := by
  rw [step1D_eq, if_neg (not_le.mpr h)]
  exact ⟨rfl, rfl⟩

/-- An unfinished 2D solver steps successfully and advances `t` by `dt`. -/
lemma step2D_run (s : Solver2D) (h : s.t < s.tmax) :
    (step2D s).1 = true ∧ (step2D s).2.t = s.t + s.dt := by
  rw [step2D_eq, if_neg (not_le.mpr h)]
  exact ⟨rfl, rfl⟩

/-- The success flag of a 1D step holds exactly when `t < tmax`. -/
lemma step1D_true_iff (s : Solver1D) : (step1D s).1 = true ↔ s.t < s.tmax := by
  rw [step1D_eq]
  split
  · next h => simpa using not_lt.mpr h
  · next h => simpa using lt_of_not_le h

/-- The success flag of a 2D step holds exactly when `t < tmax`. -/
lemma step2D_true_iff (s : Solver2D) : (step2D s).1 = true ↔ s.t < s.tmax := by
  rw [step2D_eq]
  split
  · next h => simpa using not_lt.mpr h
  · next h => simpa using lt_of_not_le h

/-- Time after `k` steps of a fresh solver clock (`t = 0`, `dt = tmax/1000`,
`tmax > 0`): `t = k * tmax/1000` as long as `k ≤ 1000`. -/
lemma iter1D_time (s : Solver1D) (h0 : s.t = 0) (hdt : s.dt = s.tmax / 1000)
    (htm : 0 < s.tmax) : ∀ k, k ≤ 1000 → (iter1D s k).t = k * (s.tmax / 1000) := by
  intro k
  induction k with
  | zero => intro _; simpa [iter1D] using h0
  | succ k ih =>
    intro hk
    have hk' : k < 1000 := hk
    have ht := ih (Nat.le_of_lt hk')
    have htmaxk := (iter1D_pres s k).2.2.1
    have hdtk := (iter1D_pres s k).2.2.2.2.1
    have hlt : (iter1D s k).t < (iter1D s k).tmax := by
      rw [ht, htmaxk]
      have hq : (k : ℚ) < 1000 := by exact_mod_cast hk'
      calc (k : ℚ) * (s.tmax / 1000) < 1000 * (s.tmax / 1000) := by
            exact mul_lt_mul_of_pos_right hq (by positivity)
        _ = s.tmax := by field_simp
    have := (step1D_run (iter1D s k) hlt).2
    show (step1D (iter1D s k)).2.t = _
    rw [this, ht, hdtk, hdt]
    push_cast
    ring

/-- Same clock computation for the 2D solver. -/
lemma iter2D_time (s : Solver2D) (h0 : s.t = 0) (hdt : s.dt = s.tmax / 1000)
    (htm : 0 < s.tmax) : ∀ k, k ≤ 1000 → (iter2D s k).t = k * (s.tmax / 1000) := by
  intro k
  induction k with
  | zero => intro _; simpa [iter2D] using h0
  | succ k ih =>
    intro hk
    have hk' : k < 1000 := hk
    have ht := ih (Nat.le_of_lt hk')
    have htmaxk := (iter2D_pres s k).2.2.1
    have hdtk := (iter2D_pres s k).2.2.2.2.1
    have hlt : (iter2D s k).t < (iter2D s k).tmax := by
      rw [ht, htmaxk]
      have hq : (k : ℚ) < 1000 := by exact_mod_cast hk'
      calc (k : ℚ) * (s.tmax / 1000) < 1000 * (s.tmax / 1000) := by
            exact mul_lt_mul_of_pos_right hq (by positivity)
        _ = s.tmax := by field_simp
    have := (step2D_run (iter2D s k) hlt).2
    show (step2D (iter2D s k)).2.t = _
    rw [this, ht, hdtk, hdt]
    push_cast
    ring

/-- Clock bound: `k * (tmax/1000) < tmax` for `k < 1000` and positive `tmax`. -/
lemma clock_lt (tmax : ℚ) (htm : 0 < tmax) (k : ℕ) (hk : k < 1000) :
    (k : ℚ) * (tmax / 1000) < tmax := by
  have hq : (k : ℚ) < 1000 := by exact_mod_cast hk
  calc (k : ℚ) * (tmax / 1000) < 1000 * (tmax / 1000) :=
        mul_lt_mul_of_pos_right hq (by positivity)
    _ = tmax := by field_simp

/-- Structure extensionality for `Solver1D` states. -/
lemma eq1D (s t : Solver1D) (h1 : s.mat = t.mat) (h2 : s.L = t.L)
    (h3 : s.tmax = t.tmax) (h4 : s.dx = t.dx) (h5 : s.dt = t.dt)
    (h6 : s.u0_kelvin = t.u0_kelvin) (h7 : s.t = t.t) (h8 : s.n = t.n)
    (h9 : s.u = t.u) (h10 : s.F = t.F) : s = t := by
  cases s; cases t
  simp_all

/-- Structure extensionality for `Solver2D` states. -/
lemma eq2D (s t : Solver2D) (h1 : s.mat = t.mat) (h2 : s.L = t.L)
    (h3 : s.tmax = t.tmax) (h4 : s.dx = t.dx) (h5 : s.dt = t.dt)
    (h6 : s.u0_kelvin = t.u0_kelvin) (h7 : s.t = t.t) (h8 : s.n = t.n)
    (h9 : s.u = t.u) (h10 : s.F = t.F) : s = t := by
  cases s; cases t
  simp_all

/-- Claim C3: for both solvers, whenever `t >= tmax`, `step()` returns `false`
and leaves the whole state unchanged; repeated calls are idempotent and keep
returning `false`. -/
theorem step_noop_after_tmax (s1 : Solver1D) (s2 : Solver2D)
    (h1 : s1.tmax ≤ s1.t) (h2 : s2.tmax ≤ s2.t) :
    (∀ k, step1D (iter1D s1 k) = (false, s1)) ∧
    (∀ k, step2D (iter2D s2 k) = (false, s2)) := by
  have e1 : ∀ k, iter1D s1 k = s1 := by
    intro k
    induction k with
    | zero => rfl
    | succ k ih =>
      show (step1D (iter1D s1 k)).2 = s1
      rw [ih, step1D_done s1 h1]
  have e2 : ∀ k, iter2D s2 k = s2 := by
    intro k
    induction k with
    | zero => rfl
    | succ k ih =>
      show (step2D (iter2D s2 k)).2 = s2
      rw [ih, step2D_done s2 h2]
  exact ⟨fun k => by rw [e1 k]; exact step1D_done s1 h1,
         fun k => by rw [e2 k]; exact step2D_done s2 h2⟩

/-- Witness for C3: a 1D solver and a 2D solver constructed with `tmax = 0`
already satisfy `t >= tmax`, and the first `step()` is a no-op. -/
theorem step_noop_after_tmax_witness :
    (mk1D COPPER 1 0 0 0 5).tmax ≤ (mk1D COPPER 1 0 0 0 5).t ∧
    step1D (mk1D COPPER 1 0 0 0 5) = (false, mk1D COPPER 1 0 0 0 5) ∧
    step2D (mk2D COPPER 1 0 0 0 3) = (false, mk2D COPPER 1 0 0 0 3) := by
  have h := step_noop_after_tmax (mk1D COPPER 1 0 0 0 5) (mk2D COPPER 1 0 0 0 3)
    (by decide) (by decide)
  exact ⟨by decide, h.1 0, h.2 0⟩

/-- Claim C5, counterexample: on the spec's test system (sub-diagonal
`[_, -1, -1]`, main diagonal `[2, 2, 2]`, super-diagonal `[-1, -1, _]`,
right-hand side `[1, 1, 1]`) the Thomas solve returns `x[1] = 2`, which is not
within `1e-9` of the claimed solution entry `1`. -/
theorem thomas_spec_system_counterexample :
    thomas (fun i => if i = 0 then 0 else -1) (fun _ => 2)
      (fun i => if i = 2 then 0 else -1) (fun _ => 1) 3 1 = 2 ∧
    ¬ |thomas (fun i => if i = 0 then 0 else -1) (fun _ => 2)
      (fun i => if i = 2 then 0 else -1) (fun _ => 1) 3 1 - 1| ≤ 1 / 1000000000 := by
  constructor
  · norm_num [thomas, backSub, dp, cp]
  · norm_num [thomas, backSub, dp, cp]

/-- Claim C5 as amended: on that system the Thomas solve returns the
analytically correct solution `x = [3/2, 2, 3/2]` (exactly, hence within
`1e-9`). -/
theorem thomas_spec_system_solution :
    thomas (fun i => if i = 0 then 0 else -1) (fun _ => 2)
      (fun i => if i = 2 then 0 else -1) (fun _ => 1) 3 0 = 3 / 2 ∧
    thomas (fun i => if i = 0 then 0 else -1) (fun _ => 2)
      (fun i => if i = 2 then 0 else -1) (fun _ => 1) 3 1 = 2 ∧
    thomas (fun i => if i = 0 then 0 else -1) (fun _ => 2)
      (fun i => if i = 2 then 0 else -1) (fun _ => 1) 3 2 = 3 / 2 := by
  refine ⟨?_, ?_, ?_⟩ <;> norm_num [thomas, backSub, dp, cp]

/-- Claim C6, code evaluation at the failing input: the constructors perform
no validation whatsoever — with the invalid resolution `n = 1` they return a
normally constructed state whose `dx = L/(n-1)` divides by zero (IEEE `inf`
in the C++ code; the exact rational model renders `q/0` as `0`), and no
"InvalidDomainParameters" condition exists anywhere in the repository. -/
theorem construction_never_fails :
    (mk1D COPPER 1 1 0 0 1).n = 1 ∧ (mk1D COPPER 1 1 0 0 1).t = 0 ∧
    (mk1D COPPER 1 1 0 0 1).dx = 0 ∧
    (mk2D COPPER 1 1 0 0 1).n = 1 ∧ (mk2D COPPER 1 1 0 0 1).t = 0 ∧
    (mk2D COPPER 1 1 0 0 1).dx = 0 := by
  refine ⟨rfl, rfl, by norm_num [mk1D], rfl, rfl, by norm_num [mk2D]⟩

/-- Projection of the 1D constructor: stored `tmax`. -/
lemma mk1D_tmax (mat : Material) (L tmax u0 f : ℚ) (n : ℕ) :
    (mk1D mat L tmax u0 f n).tmax = tmax := rfl

/-- Projection of the 1D constructor: stored `dt = tmax/1000`. -/
lemma mk1D_dt (mat : Material) (L tmax u0 f : ℚ) (n : ℕ) :
    (mk1D mat L tmax u0 f n).dt = tmax / 1000 := rfl

/-- Projection of the 2D constructor: stored `tmax`. -/
lemma mk2D_tmax (mat : Material) (L tmax u0 f : ℚ) (n : ℕ) :
    (mk2D mat L tmax u0 f n).tmax = tmax := rfl

/-- Projection of the 2D constructor: stored `dt = tmax/1000`. -/
lemma mk2D_dt (mat : Material) (L tmax u0 f : ℚ) (n : ℕ) :
    (mk2D mat L tmax u0 f n).dt = tmax / 1000 := rfl

/-- Claim C1: for every validly configured solver (1D or 2D), the first 1000
`step()` calls succeed, the 1001st returns `false`, at that point `t` equals
`tmax` exactly (in the exact-arithmetic model the floating tolerance is 0),
and every successful step advances `t` by exactly `dt = tmax/1000`. -/
theorem step_count_1000 (mat : Material) (L tmax u0 f : ℚ) (n : ℕ)
    (hn : 2 ≤ n) (hL : 0 < L) (htm : 0 < tmax) (hrc : mat.rho * mat.c ≠ 0) :
    (∀ k < 1000, (step1D (iter1D (mk1D mat L tmax u0 f n) k)).1 = true) ∧
    (step1D (iter1D (mk1D mat L tmax u0 f n) 1000)).1 = false ∧
    (iter1D (mk1D mat L tmax u0 f n) 1000).t = tmax ∧
    (∀ k, (step1D (iter1D (mk1D mat L tmax u0 f n) k)).1 = true →
      (step1D (iter1D (mk1D mat L tmax u0 f n) k)).2.t =
        (iter1D (mk1D mat L tmax u0 f n) k).t + tmax / 1000) ∧
    (∀ k < 1000, (step2D (iter2D (mk2D mat L tmax u0 f n) k)).1 = true) ∧
    (step2D (iter2D (mk2D mat L tmax u0 f n) 1000)).1 = false ∧
    (iter2D (mk2D mat L tmax u0 f n) 1000).t = tmax ∧
    (∀ k, (step2D (iter2D (mk2D mat L tmax u0 f n) k)).1 = true →
      (step2D (iter2D (mk2D mat L tmax u0 f n) k)).2.t =
        (iter2D (mk2D mat L tmax u0 f n) k).t + tmax / 1000) := by
  have time1 := iter1D_time (mk1D mat L tmax u0 f n) rfl rfl htm
  have time2 := iter2D_time (mk2D mat L tmax u0 f n) rfl rfl htm
  have t1000a : (iter1D (mk1D mat L tmax u0 f n) 1000).t = tmax := by
    rw [time1 1000 le_rfl, mk1D_tmax]
    push_cast
    field_simp
  have t1000b : (iter2D (mk2D mat L tmax u0 f n) 1000).t = tmax := by
    rw [time2 1000 le_rfl, mk2D_tmax]
    push_cast
    field_simp
  refine ⟨?_, ?_, t1000a, ?_, ?_, ?_, t1000b, ?_⟩
  · intro k hk
    rw [step1D_true_iff, time1 k (le_of_lt hk),
      (iter1D_pres (mk1D mat L tmax u0 f n) k).2.2.1, mk1D_tmax]
    exact clock_lt tmax htm k hk
  · rw [Bool.eq_false_iff]
    intro hcon
    rw [step1D_true_iff, t1000a,
      (iter1D_pres (mk1D mat L tmax u0 f n) 1000).2.2.1, mk1D_tmax] at hcon
    exact absurd hcon (lt_irrefl tmax)
  · intro k hk
    have hlt := (step1D_true_iff _).mp hk
    rw [(step1D_run _ hlt).2,
      (iter1D_pres (mk1D mat L tmax u0 f n) k).2.2.2.2.1, mk1D_dt]
  · intro k hk
    rw [step2D_true_iff, time2 k (le_of_lt hk),
      (iter2D_pres (mk2D mat L tmax u0 f n) k).2.2.1, mk2D_tmax]
    exact clock_lt tmax htm k hk
  · rw [Bool.eq_false_iff]
    intro hcon
    rw [step2D_true_iff, t1000b,
      (iter2D_pres (mk2D mat L tmax u0 f n) 1000).2.2.1, mk2D_tmax] at hcon
    exact absurd hcon (lt_irrefl tmax)
  · intro k hk
    have hlt := (step2D_true_iff _).mp hk
    rw [(step2D_run _ hlt).2,
      (iter2D_pres (mk2D mat L tmax u0 f n) k).2.2.2.2.1, mk2D_dt]

/-- Witness for C1 at the copper configuration `L = 1`, `tmax = 1`, `u0 = 0`,
`f = 0`, `n = 5`: the first step succeeds and the step budget is 1000. -/
theorem step_count_1000_witness :
    (2 ≤ 5 ∧ (0 : ℚ) < 1 ∧ COPPER.rho * COPPER.c ≠ 0) ∧
    (step1D (iter1D (mk1D COPPER 1 1 0 0 5) 0)).1 = true ∧
    (iter1D (mk1D COPPER 1 1 0 0 5) 1000).t = 1 := by
  have h := step_count_1000 COPPER 1 1 0 0 5 (by decide) (by decide) (by decide)
    (by norm_num [COPPER])
  exact ⟨⟨by decide, by decide, by norm_num [COPPER]⟩, h.1 0 (by decide), h.2.2.1⟩

/-- Claim C8: `reset()` after any number of steps yields a state equal
component-for-component to a freshly constructed solver with the same
arguments, and `reset()` never touches the source field. -/
theorem reset_restores_fresh (mat : Material) (L tmax u0 f : ℚ) (n k : ℕ) :
    reset1D (iter1D (mk1D mat L tmax u0 f n) k) = mk1D mat L tmax u0 f n ∧
    reset2D (iter2D (mk2D mat L tmax u0 f n) k) = mk2D mat L tmax u0 f n ∧
    (∀ s : Solver1D, (reset1D s).F = s.F) ∧
    (∀ s : Solver2D, (reset2D s).F = s.F) := by
  refine ⟨?_, ?_, fun s => rfl, fun s => rfl⟩
  · obtain ⟨h1, h2, h3, h4, h5, h6, h7, h8⟩ := iter1D_pres (mk1D mat L tmax u0 f n) k
    refine eq1D _ _ h1 h2 h3 h4 h5 h6 rfl h7 ?_ h8
    funext m
    exact h6
  · obtain ⟨h1, h2, h3, h4, h5, h6, h7, h8⟩ := iter2D_pres (mk2D mat L tmax u0 f n) k
    refine eq2D _ _ h1 h2 h3 h4 h5 h6 rfl h7 ?_ h8
    funext m
    exact h6

/-! Locality of the Gauss-Seidel sweep: each point update writes only its own
flattened index, rows write only their own index range. -/

/-- A point update leaves every other index of the buffer unchanged. -/
lemma pointUp_other (g : GS) (bm : (ℕ → ℚ) × ℚ) (i j m : ℕ)
    (hm : m ≠ idx g.n i j) : (pointUp g bm i j).1 m = bm.1 m := by
  unfold pointUp
  split
  · simp [upd, hm]
  · simp [upd, hm]

/-- A partial row sweep leaves indices outside the processed points unchanged. -/
lemma rowStep_other (g : GS) (j : ℕ) (bm : (ℕ → ℚ) × ℚ) (k m : ℕ)
    (hm : ∀ i < k, m ≠ idx g.n i j) : (rowStep g j bm k).1 m = bm.1 m := by
  induction k with
  | zero => rfl
  | succ k ih =>
    show (pointUp g (rowStep g j bm k) k j).1 m = bm.1 m
    rw [pointUp_other g _ k j m (hm k (Nat.lt_succ_self k))]
    exact ih fun i hi => hm i (Nat.lt_succ_of_lt hi)

/-- Sweeping the first `k` rows leaves indices at or above `k*n` unchanged. -/
lemma colStep_other (g : GS) (bm : (ℕ → ℚ) × ℚ) (k m : ℕ)
    (hm : k * g.n ≤ m) : (colStep g bm k).1 m = bm.1 m := by
  induction k with
  | zero => rfl
  | succ k ih =>
    rw [Nat.succ_mul] at hm
    show (rowStep g k (colStep g bm k) g.n).1 m = bm.1 m
    rw [rowStep_other g k _ g.n m ?ne]
    · exact ih (by omega)
    case ne =>
      intro i hi
      unfold idx
      omega

/-- The value a full row sweep leaves at one of its own points is the value
written when that point was processed. -/
lemma rowStep_value (g : GS) (j : ℕ) (bm : (ℕ → ℚ) × ℚ) (k i0 : ℕ)
    (h : i0 < k) :
    (rowStep g j bm k).1 (idx g.n i0 j) =
      (pointUp g (rowStep g j bm i0) i0 j).1 (idx g.n i0 j) := by
  induction k with
  | zero => omega
  | succ k ih =>
    rcases Nat.lt_succ_iff_lt_or_eq.mp h with h' | h'
    · show (pointUp g (rowStep g j bm k) k j).1 _ = _
      rw [pointUp_other g _ k j _ ?ne]
      · exact ih h'
      case ne =>
        unfold idx
        omega
    · subst h'
      rfl

/-- A Dirichlet point is written with the Kelvin reference. -/
lemma pointUp_dirichlet (g : GS) (bm : (ℕ → ℚ) × ℚ) (i j : ℕ)
    (hd : i = g.n - 1 ∨ j = g.n - 1) :
    (pointUp g bm i j).1 (idx g.n i j) = g.u0k := by
  unfold pointUp
  rw [if_pos hd]
  simp [upd]

/-- Once row `j` has been swept, later rows do not change its entries. -/
lemma colStep_stable (g : GS) (bm : (ℕ → ℚ) × ℚ) (i j : ℕ) (hi : i < g.n) :
    ∀ k, j + 1 ≤ k →
      (colStep g bm k).1 (idx g.n i j) = (colStep g bm (j + 1)).1 (idx g.n i j) := by
  intro k
  induction k with
  | zero => omega
  | succ k ih =>
    intro hk
    rcases Nat.lt_succ_iff_lt_or_eq.mp hk with h' | h'
    · show (rowStep g k (colStep g bm k) g.n).1 _ = _
      rw [rowStep_other g k _ g.n _ ?ne]
      · exact ih h'
      case ne =>
        intro i' hi'
        unfold idx
        have hjk : j + 1 ≤ k := h'
        have h1 : (j + 1) * g.n ≤ k * g.n := Nat.mul_le_mul_right g.n hjk
        rw [Nat.succ_mul] at h1
        omega
    · rw [h']

/-- After one full sweep, every Dirichlet point holds the Kelvin reference. -/
lemma sweep_dirichlet (g : GS) (buf : ℕ → ℚ) (md : ℚ) (i j : ℕ)
    (hi : i < g.n) (hj : j < g.n) (hd : i = g.n - 1 ∨ j = g.n - 1) :
    (colStep g (buf, md) g.n).1 (idx g.n i j) = g.u0k := by
  rw [colStep_stable g (buf, md) i j hi g.n (by omega)]
  show (rowStep g j (colStep g (buf, md) j) g.n).1 _ = _
  rw [rowStep_value g j _ g.n i hi]
  exact pointUp_dirichlet g _ i j hd

/-- The buffer returned by the Gauss-Seidel loop is always the buffer of some
full sweep (the loop performs at least one sweep). -/
lemma gsLoop_sweep (g : GS) :
    ∀ k buf, ∃ b0, gsLoop g (k + 1) buf = (sweep g b0).1 := by
  intro k
  induction k with
  | zero =>
    intro buf
    refine ⟨buf, ?_⟩
    show (let bm := sweep g buf; if bm.2 < gsTol then bm.1 else gsLoop g 0 bm.1) = _
    by_cases h : (sweep g buf).2 < gsTol
    · simp [h, gsLoop]
    · simp [h, gsLoop]
  | succ k ih =>
    intro buf
    by_cases h : (sweep g buf).2 < gsTol
    · exact ⟨buf, by simp [gsLoop, h]⟩
    · obtain ⟨b0, hb⟩ := ih (sweep g buf).1
      refine ⟨b0, ?_⟩
      show (if (sweep g buf).2 < gsTol then (sweep g buf).1
        else gsLoop g (k + 1) (sweep g buf).1) = (sweep g b0).1
      rw [if_neg h, hb]

/-- Claim C4: after any successful `step()`, the Dirichlet boundary is pinned
exactly to `u0 + 273.15`: in 1D the last entry, in 2D every entry with
`i = n-1` or `j = n-1` (the Dirichlet rule winning at shared corners). -/
theorem dirichlet_pinned (s1 : Solver1D) (s2 : Solver2D) :
    (2 ≤ s1.n → (step1D s1).1 = true →
      (step1D s1).2.u (s1.n - 1) = s1.u0_kelvin) ∧
    ((step2D s2).1 = true → ∀ i j, i < s2.n → j < s2.n →
      (i = s2.n - 1 ∨ j = s2.n - 1) →
      (step2D s2).2.u (idx s2.n i j) = s2.u0_kelvin) := by
  constructor
  · intro hn hs
    have hlt := (step1D_true_iff s1).mp hs
    rw [step1D_eq, if_neg (not_le.mpr hlt)]
    dsimp only
    unfold thomas
    rw [Nat.sub_self]
    show dp _ _ _ _ (s1.n - 1) = s1.u0_kelvin
    obtain ⟨m, hm⟩ : ∃ m, s1.n - 1 = m + 1 := ⟨s1.n - 2, by omega⟩
    have hidx : m + 1 = s1.n - 1 := hm.symm
    rw [hm]
    simp [dp, av, bv, dvec, hidx]
  · intro hs i j hi hj hd
    have hlt := (step2D_true_iff s2).mp hs
    rw [step2D_eq, if_neg (not_le.mpr hlt)]
    dsimp only
    obtain ⟨b0, hb⟩ := gsLoop_sweep (mkGS s2) 99 s2.u
    rw [show (100 : ℕ) = 99 + 1 from rfl, hb]
    show (colStep (mkGS s2) (b0, 0) (mkGS s2).n).1 _ = _
    exact sweep_dirichlet (mkGS s2) b0 0 i j hi hj hd

/-- Witness for C4: the copper configuration with `n = 5` (1D) and `n = 3`
(2D), checked at the last 1D entry and at the 2D point `(2, 1)` on the
Dirichlet edge. -/
theorem dirichlet_pinned_witness :
    (2 ≤ (mk1D COPPER 1 1 0 0 5).n ∧ (step1D (mk1D COPPER 1 1 0 0 5)).1 = true ∧
      (step1D (mk1D COPPER 1 1 0 0 5)).2.u 4 = (mk1D COPPER 1 1 0 0 5).u0_kelvin) ∧
    ((step2D (mk2D COPPER 1 1 0 0 3)).1 = true ∧
      (step2D (mk2D COPPER 1 1 0 0 3)).2.u (idx 3 2 1) =
        (mk2D COPPER 1 1 0 0 3).u0_kelvin) := by
  refine ⟨⟨by decide, by decide, ?_⟩, ⟨by decide, ?_⟩⟩
  · exact (dirichlet_pinned (mk1D COPPER 1 1 0 0 5) (mk2D COPPER 1 1 0 0 3)).1
      (by decide) (by decide)
  · exact (dirichlet_pinned (mk1D COPPER 1 1 0 0 5) (mk2D COPPER 1 1 0 0 3)).2
      (by decide) 2 1 (by decide) (by decide) (Or.inl (by decide))

/-! Equilibrium: with a zero source amplitude and a uniform field at the
Kelvin reference, both solvers are at a fixed point. -/

/-- With zero amplitude the 1D source field vanishes. -/
lemma initSource1D_zero (Lv tmaxv dxv : ℚ) (i : ℕ) :
    initSource1D Lv tmaxv dxv 0 i = 0 := by
  unfold initSource1D
  dsimp only
  split_ifs <;> ring

/-- With zero amplitude the 2D source field vanishes. -/
lemma srcVal2D_zero (Lv tmaxv dxv : ℚ) (i j : ℕ) :
    srcVal2D Lv tmaxv dxv 0 i j = 0 := by
  unfold srcVal2D
  dsimp only
  split_ifs <;> ring

/-- Bounds on the forward-elimination coefficients of the 1D system for a
nonnegative diffusion number: every `c_prime[i]` below the Dirichlet row lies
in `(-1, 0]`. -/
lemma cp_bound (r : ℚ) (n : ℕ) (hr : 0 ≤ r) (hn : 2 ≤ n) :
    ∀ i, i ≤ n - 2 → -1 < cp (av r n) (bv r n) (cv r n) i ∧
      cp (av r n) (bv r n) (cv r n) i ≤ 0 := by
  intro i
  induction i with
  | zero =>
    intro _
    have h0 : (0 : ℕ) ≠ n - 1 := by omega
    have hb0 : bv r n 0 = 1 + r := by simp [bv, h0]
    have hc0 : cv r n 0 = -r := by simp [cv, h0]
    have h1 : (0 : ℚ) < 1 + r := by linarith
    have h2 : r / (1 + r) < 1 := (div_lt_one h1).mpr (by linarith)
    have h3 : 0 ≤ r / (1 + r) := div_nonneg hr h1.le
    have h4 : -r / (1 + r) = -(r / (1 + r)) := by ring
    simp only [cp, hb0, hc0]
    rw [h4]
    constructor <;> linarith
  | succ i ih =>
    intro hi
    obtain ⟨ihl, ihr⟩ := ih (by omega)
    have hne : i + 1 ≠ n - 1 := by omega
    have hne0 : i + 1 ≠ 0 := by omega
    have ha : av r n (i + 1) = -r := by simp [av, hne]
    have hb : bv r n (i + 1) = 1 + 2 * r := by simp [bv, hne, hne0]
    have hc : cv r n (i + 1) = -r := by simp [cv, hne]
    have hrc : -r ≤ r * cp (av r n) (bv r n) (cv r n) i := by nlinarith
    have hden : (0 : ℚ) < 1 + 2 * r - -r * cp (av r n) (bv r n) (cv r n) i := by
      nlinarith
    have h2 : r / (1 + 2 * r - -r * cp (av r n) (bv r n) (cv r n) i) < 1 :=
      (div_lt_one hden).mpr (by nlinarith)
    have h3 : 0 ≤ r / (1 + 2 * r - -r * cp (av r n) (bv r n) (cv r n) i) :=
      div_nonneg hr hden.le
    have h4 : -r / (1 + 2 * r - -r * cp (av r n) (bv r n) (cv r n) i) =
        -(r / (1 + 2 * r - -r * cp (av r n) (bv r n) (cv r n) i)) := by ring
    simp only [cp]
    rw [ha, hb, hc, h4]
    constructor <;> linarith

/-- With a constant right-hand side `u0k`, every `d_prime[i]` below the
Dirichlet row equals `u0k * (1 + c_prime[i])`. -/
lemma dp_eq (r : ℚ) (n : ℕ) (hr : 0 ≤ r) (hn : 2 ≤ n) (u0k : ℚ)
    (d : ℕ → ℚ) (hd : ∀ i, d i = u0k) :
    ∀ i, i ≤ n - 2 → dp (av r n) (bv r n) (cv r n) d i =
      u0k * (1 + cp (av r n) (bv r n) (cv r n) i) := by
  intro i
  induction i with
  | zero =>
    intro _
    have h0 : (0 : ℕ) ≠ n - 1 := by omega
    have hb0 : bv r n 0 = 1 + r := by simp [bv, h0]
    have hc0 : cv r n 0 = -r := by simp [cv, h0]
    have h1 : (0 : ℚ) < 1 + r := by linarith
    simp only [dp, cp, hb0, hc0, hd 0]
    field_simp
  | succ i ih =>
    intro hi
    have hcpb := cp_bound r n hr hn i (by omega)
    have hne : i + 1 ≠ n - 1 := by omega
    have hne0 : i + 1 ≠ 0 := by omega
    have ha : av r n (i + 1) = -r := by simp [av, hne]
    have hb : bv r n (i + 1) = 1 + 2 * r := by simp [bv, hne, hne0]
    have hc : cv r n (i + 1) = -r := by simp [cv, hne]
    have hden : (0 : ℚ) < 1 + 2 * r - -r * cp (av r n) (bv r n) (cv r n) i := by
      nlinarith [hcpb.1, hcpb.2]
    have hne' : (1 + 2 * r - -r * cp (av r n) (bv r n) (cv r n) i) ≠ 0 := hden.ne'
    simp only [dp, cp]
    rw [ha, hb, hc, hd (i + 1), ih (by omega)]
    have hB : u0k * (1 + -r / (1 + 2 * r - -r * cp (av r n) (bv r n) (cv r n) i)) =
        (u0k * ((1 + 2 * r - -r * cp (av r n) (bv r n) (cv r n) i) + -r)) /
          (1 + 2 * r - -r * cp (av r n) (bv r n) (cv r n) i) := by
      rw [mul_div_assoc]
      congr 1
      rw [add_div, div_self hne']
    rw [hB, div_eq_div_iff hne' hne']
    ring

/-- The Dirichlet row makes `c_prime[n-1] = 0`. -/
lemma cp_last (r : ℚ) (n : ℕ) (hn : 2 ≤ n) :
    cp (av r n) (bv r n) (cv r n) (n - 1) = 0 := by
  obtain ⟨m, hm⟩ : ∃ m, n - 1 = m + 1 := ⟨n - 2, by omega⟩
  have hidx : m + 1 = n - 1 := hm.symm
  rw [hm]
  simp [cp, av, bv, cv, hidx]

/-- The Dirichlet row makes `d_prime[n-1] = d[n-1]`. -/
lemma dp_last (r : ℚ) (n : ℕ) (hn : 2 ≤ n) (u0k : ℚ) (d : ℕ → ℚ)
    (hd : d (n - 1) = u0k) :
    dp (av r n) (bv r n) (cv r n) d (n - 1) = u0k := by
  obtain ⟨m, hm⟩ : ∃ m, n - 1 = m + 1 := ⟨n - 2, by omega⟩
  have hidx : m + 1 = n - 1 := hm.symm
  rw [hm] at hd ⊢
  simp [dp, av, bv, hidx]
  rw [← hidx]
  exact hd

/-- Combined form of `dp_eq`, `dp_last` and `cp_last` for all rows. -/
lemma dp_all (r : ℚ) (n : ℕ) (hr : 0 ≤ r) (hn : 2 ≤ n) (u0k : ℚ)
    (d : ℕ → ℚ) (hd : ∀ i, d i = u0k) :
    ∀ m, m ≤ n - 1 → dp (av r n) (bv r n) (cv r n) d m =
      u0k * (1 + cp (av r n) (bv r n) (cv r n) m) := by
  intro m hm
  rcases Nat.lt_or_ge m (n - 1) with h | h
  · exact dp_eq r n hr hn u0k d hd m (by omega)
  · have hm1 : m = n - 1 := by omega
    rw [hm1, dp_last r n hn u0k d (hd _), cp_last r n hn]
    ring

/-- With a constant right-hand side the whole back substitution is constant:
the uniform field solves the 1D implicit system exactly. -/
lemma backSub_const (r : ℚ) (n : ℕ) (hr : 0 ≤ r) (hn : 2 ≤ n) (u0k : ℚ)
    (d : ℕ → ℚ) (hd : ∀ i, d i = u0k) :
    ∀ k, backSub (av r n) (bv r n) (cv r n) d n k = u0k := by
  intro k
  induction k with
  | zero =>
    show dp _ _ _ _ (n - 1) = u0k
    exact dp_last r n hn u0k d (hd _)
  | succ k ih =>
    show dp _ _ _ _ (n - 1 - (k + 1)) -
        cp _ _ _ (n - 1 - (k + 1)) * backSub _ _ _ _ n k = u0k
    rw [ih, dp_all r n hr hn u0k d hd (n - 1 - (k + 1)) (by omega)]
    ring

/-- A 1D step at equilibrium leaves the field at the Kelvin reference. -/
lemma step1D_equilibrium (s : Solver1D) (hn : 2 ≤ s.n)
    (hr : 0 ≤ s.mat.alpha * s.dt / (s.dx * s.dx))
    (hu : ∀ i, s.u i = s.u0_kelvin) (hF : ∀ i, s.F i = 0) :
    ∀ i, (step1D s).2.u i = s.u0_kelvin := by
  intro i
  rw [step1D_eq]
  split
  · exact hu i
  · dsimp only
    have hd : ∀ m, dvec (s.dt / (s.mat.rho * s.mat.c)) s.u0_kelvin s.n s.u s.F m =
        s.u0_kelvin := by
      intro m
      unfold dvec
      split
      · rfl
      · rw [hu m, hF m]; ring
    exact backSub_const _ s.n hr hn s.u0_kelvin _ hd (s.n - 1 - i)

/-- Iterated 1D equilibrium: the field never moves. -/
lemma iter1D_equilibrium (s : Solver1D) (hn : 2 ≤ s.n)
    (hr : 0 ≤ s.mat.alpha * s.dt / (s.dx * s.dx))
    (hu : ∀ i, s.u i = s.u0_kelvin) (hF : ∀ i, s.F i = 0) :
    ∀ k i, (iter1D s k).u i = s.u0_kelvin := by
  intro k
  induction k with
  | zero => exact hu
  | succ k ih =>
    obtain ⟨h1, _, _, h4, h5, h6, h7, h8⟩ := iter1D_pres s k
    intro i
    show (step1D (iter1D s k)).2.u i = s.u0_kelvin
    have heq := step1D_equilibrium (iter1D s k) (by rw [h7]; exact hn)
      (by rw [h1, h5, h4]; exact hr)
      (fun m => by rw [ih m, h6])
      (fun m => by rw [h8]; exact hF m)
    rw [heq i, h6]

/-- Non-Dirichlet form of a point update. -/
lemma pointUp_nd (g : GS) (bm : (ℕ → ℚ) × ℚ) (i j : ℕ)
    (hnd : ¬(i = g.n - 1 ∨ j = g.n - 1)) :
    pointUp g bm i j =
      (upd bm.1 (idx g.n i j)
        ((g.uold (idx g.n i j) + g.coef * g.F (idx g.n i j) +
          g.r * ((if 0 < i then bm.1 (idx g.n (i - 1) j) else bm.1 (idx g.n 1 j)) +
            bm.1 (idx g.n (i + 1) j) +
            (if 0 < j then bm.1 (idx g.n i (j - 1)) else bm.1 (idx g.n i 1)) +
            bm.1 (idx g.n i (j + 1)))) / (1 + 4 * g.r)),
       max bm.2 (abs ((g.uold (idx g.n i j) + g.coef * g.F (idx g.n i j) +
          g.r * ((if 0 < i then bm.1 (idx g.n (i - 1) j) else bm.1 (idx g.n 1 j)) +
            bm.1 (idx g.n (i + 1) j) +
            (if 0 < j then bm.1 (idx g.n i (j - 1)) else bm.1 (idx g.n i 1)) +
            bm.1 (idx g.n i (j + 1)))) / (1 + 4 * g.r) -
          bm.1 (idx g.n i j)))) := by
  unfold pointUp
  rw [if_neg hnd]

/-- Dirichlet form of a point update. -/
lemma pointUp_d (g : GS) (bm : (ℕ → ℚ) × ℚ) (i j : ℕ)
    (hd : i = g.n - 1 ∨ j = g.n - 1) :
    pointUp g bm i j = (upd bm.1 (idx g.n i j) g.u0k, bm.2) := by
  unfold pointUp
  rw [if_pos hd]

/-- A point update at equilibrium keeps the buffer constant and the sweep
maximum difference at zero. -/
lemma pointUp_const (g : GS) (hr : 0 ≤ g.r)
    (hold : ∀ m, g.uold m = g.u0k) (hF : ∀ m, g.F m = 0)
    (bm : (ℕ → ℚ) × ℚ) (hb : ∀ m, bm.1 m = g.u0k) (hmd : bm.2 = 0) (i j : ℕ) :
    (∀ m, (pointUp g bm i j).1 m = g.u0k) ∧ (pointUp g bm i j).2 = 0 := by
  by_cases hd : i = g.n - 1 ∨ j = g.n - 1
  · rw [pointUp_d g bm i j hd]
    refine ⟨fun m => ?_, hmd⟩
    show upd bm.1 (idx g.n i j) g.u0k m = g.u0k
    unfold upd
    split
    · rfl
    · exact hb m
  · rw [pointUp_nd g bm i j hd]
    have hl : (if 0 < i then bm.1 (idx g.n (i - 1) j) else bm.1 (idx g.n 1 j)) =
        g.u0k := by split <;> exact hb _
    have hdn : (if 0 < j then bm.1 (idx g.n i (j - 1)) else bm.1 (idx g.n i 1)) =
        g.u0k := by split <;> exact hb _
    have h4 : (1 + 4 * g.r) ≠ 0 := by linarith
    have hnv : (g.uold (idx g.n i j) + g.coef * g.F (idx g.n i j) +
        g.r * ((if 0 < i then bm.1 (idx g.n (i - 1) j) else bm.1 (idx g.n 1 j)) +
          bm.1 (idx g.n (i + 1) j) +
          (if 0 < j then bm.1 (idx g.n i (j - 1)) else bm.1 (idx g.n i 1)) +
          bm.1 (idx g.n i (j + 1)))) / (1 + 4 * g.r) = g.u0k := by
      rw [hl, hdn, hold, hF, hb, hb]
      field_simp
      ring
    constructor
    · intro m
      show upd bm.1 (idx g.n i j) _ m = g.u0k
      unfold upd
      split
      · exact hnv
      · exact hb m
    · show max bm.2 (abs (_ - bm.1 (idx g.n i j))) = 0
      rw [hnv, hb, hmd, sub_self, abs_zero, max_self]

/-- A row sweep at equilibrium keeps the buffer constant. -/
lemma rowStep_const (g : GS) (hr : 0 ≤ g.r)
    (hold : ∀ m, g.uold m = g.u0k) (hF : ∀ m, g.F m = 0) (j : ℕ) :
    ∀ k (bm : (ℕ → ℚ) × ℚ), (∀ m, bm.1 m = g.u0k) → bm.2 = 0 →
      (∀ m, (rowStep g j bm k).1 m = g.u0k) ∧ (rowStep g j bm k).2 = 0 := by
  intro k
  induction k with
  | zero => intro bm hb hmd; exact ⟨hb, hmd⟩
  | succ k ih =>
    intro bm hb hmd
    obtain ⟨hb', hmd'⟩ := ih bm hb hmd
    exact pointUp_const g hr hold hF _ hb' hmd' k j

/-- A full sweep at equilibrium keeps the buffer constant. -/
lemma colStep_const (g : GS) (hr : 0 ≤ g.r)
    (hold : ∀ m, g.uold m = g.u0k) (hF : ∀ m, g.F m = 0) :
    ∀ k (bm : (ℕ → ℚ) × ℚ), (∀ m, bm.1 m = g.u0k) → bm.2 = 0 →
      (∀ m, (colStep g bm k).1 m = g.u0k) ∧ (colStep g bm k).2 = 0 := by
  intro k
  induction k with
  | zero => intro bm hb hmd; exact ⟨hb, hmd⟩
  | succ k ih =>
    intro bm hb hmd
    obtain ⟨hb', hmd'⟩ := ih bm hb hmd
    exact rowStep_const g hr hold hF k g.n _ hb' hmd'

/-- The Gauss-Seidel loop at equilibrium: the first sweep changes nothing and
its maximum difference `0` is below the tolerance, so it exits immediately
with the constant buffer. -/
lemma gsLoop_const (g : GS) (hr : 0 ≤ g.r)
    (hold : ∀ m, g.uold m = g.u0k) (hF : ∀ m, g.F m = 0)
    (buf : ℕ → ℚ) (hb : ∀ m, buf m = g.u0k) :
    ∀ m, gsLoop g 100 buf m = g.u0k := by
  have hs := colStep_const g hr hold hF g.n (buf, 0) hb rfl
  intro m
  rw [show (100 : ℕ) = 99 + 1 from rfl]
  show (if (sweep g buf).2 < gsTol then (sweep g buf).1
    else gsLoop g 99 (sweep g buf).1) m = g.u0k
  have hlt : (sweep g buf).2 < gsTol := by
    show (colStep g (buf, 0) g.n).2 < gsTol
    rw [hs.2]
    norm_num [gsTol]
  rw [if_pos hlt]
  exact hs.1 m

/-- A 2D step at equilibrium leaves the field at the Kelvin reference. -/
lemma step2D_equilibrium (s : Solver2D)
    (hr : 0 ≤ s.mat.alpha * s.dt / (s.dx * s.dx))
    (hu : ∀ m, s.u m = s.u0_kelvin) (hF : ∀ m, s.F m = 0) :
    ∀ m, (step2D s).2.u m = s.u0_kelvin := by
  intro m
  rw [step2D_eq]
  split
  · exact hu m
  · dsimp only
    exact gsLoop_const (mkGS s) hr hu hF s.u hu m

/-- Iterated 2D equilibrium: the field never moves. -/
lemma iter2D_equilibrium (s : Solver2D)
    (hr : 0 ≤ s.mat.alpha * s.dt / (s.dx * s.dx))
    (hu : ∀ m, s.u m = s.u0_kelvin) (hF : ∀ m, s.F m = 0) :
    ∀ k m, (iter2D s k).u m = s.u0_kelvin := by
  intro k
  induction k with
  | zero => exact hu
  | succ k ih =>
    obtain ⟨h1, _, _, h4, h5, h6, h7, h8⟩ := iter2D_pres s k
    intro m
    show (step2D (iter2D s k)).2.u m = s.u0_kelvin
    have heq := step2D_equilibrium (iter2D s k)
      (by rw [h1, h5, h4]; exact hr)
      (fun m => by rw [ih m, h6])
      (fun m => by rw [h8]; exact hF m)
    rw [heq m, h6]

/-- Claim C7: with source amplitude `f = 0` (initial temperature always equals
the Dirichlet reference in this code), the uniform field is a fixed point of
`step()` for both solvers, and in the concrete scenario `n = 5`, `L = 1`,
`tmax = 1`, `u0 = 0`, `f = 0` the 1D field is `[273.15] * 5` initially and
after one step. -/
theorem equilibrium_fixed_point (mat : Material) (L tmax u0 : ℚ) (n : ℕ)
    (hn : 2 ≤ n) (hL : 0 < L) (htm : 0 < tmax) (hrc : 0 < mat.rho * mat.c)
    (hlam : 0 ≤ mat.lambda) :
    (∀ k i, (iter1D (mk1D mat L tmax u0 0 n) k).u i =
      (mk1D mat L tmax u0 0 n).u i) ∧
    (∀ k m, (iter2D (mk2D mat L tmax u0 0 n) k).u m =
      (mk2D mat L tmax u0 0 n).u m) ∧
    (∀ i, (mk1D COPPER 1 1 0 0 5).u i = 27315 / 100) ∧
    (∀ i, (iter1D (mk1D COPPER 1 1 0 0 5) 1).u i = 27315 / 100) := by
  have halpha : 0 ≤ mat.alpha := div_nonneg hlam hrc.le
  have hr1 : 0 ≤ (mk1D mat L tmax u0 0 n).mat.alpha * (mk1D mat L tmax u0 0 n).dt /
      ((mk1D mat L tmax u0 0 n).dx * (mk1D mat L tmax u0 0 n).dx) := by
    show 0 ≤ mat.alpha * (tmax / 1000) / ((L / ((n : ℚ) - 1)) * (L / ((n : ℚ) - 1)))
    exact div_nonneg (mul_nonneg halpha (by positivity)) (mul_self_nonneg _)
  have hr2 : 0 ≤ (mk2D mat L tmax u0 0 n).mat.alpha * (mk2D mat L tmax u0 0 n).dt /
      ((mk2D mat L tmax u0 0 n).dx * (mk2D mat L tmax u0 0 n).dx) := by
    show 0 ≤ mat.alpha * (tmax / 1000) / ((L / ((n : ℚ) - 1)) * (L / ((n : ℚ) - 1)))
    exact div_nonneg (mul_nonneg halpha (by positivity)) (mul_self_nonneg _)
  have he1 := iter1D_equilibrium (mk1D mat L tmax u0 0 n) hn hr1
    (fun _ => rfl) (fun i => initSource1D_zero _ _ _ i)
  have he2 := iter2D_equilibrium (mk2D mat L tmax u0 0 n) hr2
    (fun _ => rfl) (fun k => srcVal2D_zero _ _ _ _ _)
  have hcop : 0 ≤ COPPER.alpha := by norm_num [Material.alpha, COPPER]
  have hrc5 : 0 ≤ (mk1D COPPER 1 1 0 0 5).mat.alpha * (mk1D COPPER 1 1 0 0 5).dt /
      ((mk1D COPPER 1 1 0 0 5).dx * (mk1D COPPER 1 1 0 0 5).dx) := by
    show 0 ≤ COPPER.alpha * ((1 : ℚ) / 1000) /
      (((1 : ℚ) / ((5 : ℚ) - 1)) * ((1 : ℚ) / ((5 : ℚ) - 1)))
    positivity
  have hec := iter1D_equilibrium (mk1D COPPER 1 1 0 0 5) (by decide) hrc5
    (fun _ => rfl) (fun i => initSource1D_zero _ _ _ i)
  refine ⟨fun k i => ?_, fun k m => ?_, fun i => ?_, fun i => ?_⟩
  · rw [he1 k i]; rfl
  · rw [he2 k m]; rfl
  · show (0 : ℚ) + KELVIN_OFFSET = 27315 / 100
    norm_num [KELVIN_OFFSET]
  · rw [hec 1 i]
    show (0 : ℚ) + KELVIN_OFFSET = 27315 / 100
    norm_num [KELVIN_OFFSET]

/-- Witness for C7: the copper configuration `L = 1`, `tmax = 1`, `u0 = 0`,
`f = 0`, `n = 5`, with every hypothesis instantiated and the first step's
field checked at index 0. -/
theorem equilibrium_fixed_point_witness :
    (2 ≤ 5 ∧ (0 : ℚ) < 1 ∧ (0 : ℚ) < COPPER.rho * COPPER.c ∧
      (0 : ℚ) ≤ COPPER.lambda) ∧
    (iter1D (mk1D COPPER 1 1 0 0 5) 1).u 0 = 27315 / 100 := by
  have h := equilibrium_fixed_point COPPER 1 1 0 5 (by norm_num) (by norm_num)
    (by norm_num) (by norm_num [COPPER]) (by norm_num [COPPER])
  exact ⟨⟨by norm_num, by norm_num, by norm_num [COPPER], by norm_num [COPPER]⟩,
    h.2.2.2 0⟩

/-- Flattened index arithmetic: `idx(i,j) % n = i` and `idx(i,j) / n = j`
for in-range `i`. -/
lemma idx_mod_div (n i j : ℕ) (hi : i < n) (hn : 0 < n) :
    idx n i j % n = i ∧ idx n i j / n = j := by
  constructor
  · unfold idx
    rw [Nat.mul_comm j n, Nat.mul_add_mod]
    exact Nat.mod_eq_of_lt hi
  · unfold idx
    rw [Nat.add_comm, Nat.add_mul_div_right _ _ hn, Nat.div_eq_of_lt hi, Nat.zero_add]

/-- Claim C9: the source fields sample the grid-point coordinates
`x = i*dx`, `y = j*dx` with inclusive region bounds.  1D: value
`tmax*f^2*100` on `[L/10, 2L/10]`, value `0.75*tmax*f^2*100` on
`[5L/10, 6L/10]`, `0` elsewhere.  2D: value `tmax*f^2*100` exactly when both
coordinates lie in one of the bands `[L/6, 2L/6]` and `[4L/6, 5L/6]` (the
four axis-aligned squares), `0` elsewhere. -/
theorem source_field_regions (mat : Material) (L tmax u0 f : ℚ) (n : ℕ)
    (hL : 0 < L) :
    (∀ (i : ℕ) (x : ℚ), x = (i : ℚ) * (L / ((n : ℚ) - 1)) →
      (L / 10 ≤ x ∧ x ≤ 2 * L / 10 →
        (mk1D mat L tmax u0 f n).F i = tmax * f ^ 2 * 100) ∧
      (5 * L / 10 ≤ x ∧ x ≤ 6 * L / 10 →
        (mk1D mat L tmax u0 f n).F i = 3 / 4 * tmax * f ^ 2 * 100) ∧
      (¬(L / 10 ≤ x ∧ x ≤ 2 * L / 10) ∧ ¬(5 * L / 10 ≤ x ∧ x ≤ 6 * L / 10) →
        (mk1D mat L tmax u0 f n).F i = 0)) ∧
    (∀ i j : ℕ, i < n → j < n → ∀ x y : ℚ,
      x = (i : ℚ) * (L / ((n : ℚ) - 1)) → y = (j : ℚ) * (L / ((n : ℚ) - 1)) →
      (((L / 6 ≤ x ∧ x ≤ 2 * L / 6) ∨ (4 * L / 6 ≤ x ∧ x ≤ 5 * L / 6)) ∧
       ((L / 6 ≤ y ∧ y ≤ 2 * L / 6) ∨ (4 * L / 6 ≤ y ∧ y ≤ 5 * L / 6)) →
        (mk2D mat L tmax u0 f n).F (idx n i j) = tmax * f ^ 2 * 100) ∧
      (¬(((L / 6 ≤ x ∧ x ≤ 2 * L / 6) ∨ (4 * L / 6 ≤ x ∧ x ≤ 5 * L / 6)) ∧
         ((L / 6 ≤ y ∧ y ≤ 2 * L / 6) ∨ (4 * L / 6 ≤ y ∧ y ≤ 5 * L / 6))) →
        (mk2D mat L tmax u0 f n).F (idx n i j) = 0)) := by
  constructor
  · intro i x hx
    subst hx
    have hF : (mk1D mat L tmax u0 f n).F i =
        (if L / 10 ≤ (i : ℚ) * (L / ((n : ℚ) - 1)) ∧
            (i : ℚ) * (L / ((n : ℚ) - 1)) ≤ 2 * L / 10
         then tmax * f * f * 100
         else if 5 * L / 10 ≤ (i : ℚ) * (L / ((n : ℚ) - 1)) ∧
            (i : ℚ) * (L / ((n : ℚ) - 1)) ≤ 6 * L / 10
         then 3 / 4 * tmax * f * f * 100 else 0) := rfl
    rw [hF]
    refine ⟨fun h1 => ?_, fun h2 => ?_, fun hn0 => ?_⟩
    · rw [if_pos h1]
      ring
    · rw [if_neg ?dis, if_pos h2]
      · ring
      case dis =>
        rintro ⟨g1, g2⟩
        rcases h2 with ⟨g3, g4⟩
        linarith
    · rw [if_neg hn0.1, if_neg hn0.2]
  · intro i j hi hj x y hx hy
    subst hx
    subst hy
    have hn : 0 < n := by omega
    obtain ⟨hmod, hdiv⟩ := idx_mod_div n i j hi hn
    have hF : (mk2D mat L tmax u0 f n).F (idx n i j) =
        srcVal2D L tmax (L / ((n : ℚ) - 1)) f (idx n i j % n) (idx n i j / n) := rfl
    rw [hF, hmod, hdiv]
    unfold srcVal2D
    dsimp only
    constructor
    · intro hin
      have hc : (L / 6 ≤ (i : ℚ) * (L / ((n : ℚ) - 1)) ∧
            (i : ℚ) * (L / ((n : ℚ) - 1)) ≤ 2 * L / 6 ∧
            L / 6 ≤ (j : ℚ) * (L / ((n : ℚ) - 1)) ∧
            (j : ℚ) * (L / ((n : ℚ) - 1)) ≤ 2 * L / 6) ∨
          (4 * L / 6 ≤ (i : ℚ) * (L / ((n : ℚ) - 1)) ∧
            (i : ℚ) * (L / ((n : ℚ) - 1)) ≤ 5 * L / 6 ∧
            L / 6 ≤ (j : ℚ) * (L / ((n : ℚ) - 1)) ∧
            (j : ℚ) * (L / ((n : ℚ) - 1)) ≤ 2 * L / 6) ∨
          (L / 6 ≤ (i : ℚ) * (L / ((n : ℚ) - 1)) ∧
            (i : ℚ) * (L / ((n : ℚ) - 1)) ≤ 2 * L / 6 ∧
            4 * L / 6 ≤ (j : ℚ) * (L / ((n : ℚ) - 1)) ∧
            (j : ℚ) * (L / ((n : ℚ) - 1)) ≤ 5 * L / 6) ∨
          (4 * L / 6 ≤ (i : ℚ) * (L / ((n : ℚ) - 1)) ∧
            (i : ℚ) * (L / ((n : ℚ) - 1)) ≤ 5 * L / 6 ∧
            4 * L / 6 ≤ (j : ℚ) * (L / ((n : ℚ) - 1)) ∧
            (j : ℚ) * (L / ((n : ℚ) - 1)) ≤ 5 * L / 6) := by
        obtain ⟨hx | hx, hy | hy⟩ := hin
        · exact Or.inl ⟨hx.1, hx.2, hy.1, hy.2⟩
        · exact Or.inr (Or.inr (Or.inl ⟨hx.1, hx.2, hy.1, hy.2⟩))
        · exact Or.inr (Or.inl ⟨hx.1, hx.2, hy.1, hy.2⟩)
        · exact Or.inr (Or.inr (Or.inr ⟨hx.1, hx.2, hy.1, hy.2⟩))
      rw [if_pos hc]
      ring
    · intro hout
      rw [if_neg ?nc]
      case nc =>
        intro hcon
        apply hout
        rcases hcon with ⟨a, b, c, d⟩ | ⟨a, b, c, d⟩ | ⟨a, b, c, d⟩ | ⟨a, b, c, d⟩
        · exact ⟨Or.inl ⟨a, b⟩, Or.inl ⟨c, d⟩⟩
        · exact ⟨Or.inr ⟨a, b⟩, Or.inl ⟨c, d⟩⟩
        · exact ⟨Or.inl ⟨a, b⟩, Or.inr ⟨c, d⟩⟩
        · exact ⟨Or.inr ⟨a, b⟩, Or.inr ⟨c, d⟩⟩

/-- Witness for C9: `L = 1`, `tmax = 2`, `f = 3`; in 1D with `n = 11` the
point `i = 1` (`x = 0.1`) lies in the first band and gets `2*9*100 = 1800`;
in 2D with `n = 7` the point `(1,1)` (`x = y = 1/6`) lies in the first square
and gets `1800`. -/
theorem source_field_regions_witness :
    (0 : ℚ) < 1 ∧
    (mk1D COPPER 1 2 0 3 11).F 1 = 2 * 3 ^ 2 * 100 ∧
    (mk2D COPPER 1 2 0 3 7).F (idx 7 1 1) = 2 * 3 ^ 2 * 100 := by
  have h1 := source_field_regions COPPER 1 2 0 3 11 (by norm_num)
  have h2 := source_field_regions COPPER 1 2 0 3 7 (by norm_num)
  refine ⟨by norm_num, ?_, ?_⟩
  · exact (h1.1 1 (((1 : ℕ) : ℚ) * (1 / (((11 : ℕ) : ℚ) - 1))) rfl).1
      (by norm_num)
  · exact (h2.2 1 1 (by norm_num) (by norm_num)
      (((1 : ℕ) : ℚ) * (1 / (((7 : ℕ) : ℚ) - 1)))
      (((1 : ℕ) : ℚ) * (1 / (((7 : ℕ) : ℚ) - 1))) rfl rfl).1
      ⟨Or.inl (by norm_num), Or.inl (by norm_num)⟩

/-- Claim C10: the 2D point accessor and the materialised 2D view agree:
`get_temperature(i, j) = get_temperature_2d()[j][i]`, both reading the
flattened buffer at `j*n + i`. -/
theorem accessor_view_agree (s : Solver2D) (i j : ℕ) (hi : i < s.n)
    (hj : j < s.n) :
    getTemperature s i j = ((getTemperature2d s).getD j []).getD i 0 ∧
    getTemperature s i j = s.u (j * s.n + i) := by
  refine ⟨?_, rfl⟩
  have houter : (getTemperature2d s).getD j [] =
      (List.range s.n).map (fun i => s.u (idx s.n i j)) := by
    unfold getTemperature2d
    rw [List.getD_eq_getElem?_getD, List.getElem?_map, List.getElem?_range hj]
    rfl
  have hinner : ((List.range s.n).map (fun i => s.u (idx s.n i j))).getD i 0 =
      s.u (idx s.n i j) := by
    rw [List.getD_eq_getElem?_getD, List.getElem?_map, List.getElem?_range hi]
    rfl
  rw [houter, hinner]
  rfl

/-- Witness for C10: the fresh copper 2D solver with `n = 3` at `(2, 1)`. -/
theorem accessor_view_agree_witness :
    1 < (mk2D COPPER 1 1 0 0 3).n ∧
    getTemperature (mk2D COPPER 1 1 0 0 3) 2 1 =
      (((getTemperature2d (mk2D COPPER 1 1 0 0 3)).getD 1 []).getD 2 0) := by
  exact ⟨by decide,
    (accessor_view_agree (mk2D COPPER 1 1 0 0 3) 2 1 (by decide) (by decide)).1⟩

/-! Spec formulation of the 2D relaxation (claim C2): the same relaxation
transcribed from the specification's wording, sweeping grid points in
flattened row-major order, to be compared with the source transcription
`rowStep`/`colStep`/`sweep`/`gsLoop`. -/

/-- Spec formulation: one point update.  A Dirichlet point (`i = n-1` or
`j = n-1`) is pinned to the Kelvin reference; every other point is updated to
`(u_old(i,j) + coef*F(i,j) + r*(left+right+down+up)) / (1+4r)`, with the
neighbors read from the partially updated buffer and the missing neighbor at
`i = 0` or `j = 0` replaced by the value at index 1; the maximum absolute
per-point change of the sweep is tracked. -/
def specPoint (g : GS) (bm : (ℕ → ℚ) × ℚ) (i j : ℕ) : (ℕ → ℚ) × ℚ :=
  if i = g.n - 1 ∨ j = g.n - 1 then (upd bm.1 (idx g.n i j) g.u0k, bm.2)
  else
    let left := bm.1 (idx g.n (if i = 0 then 1 else i - 1) j)
    let right := bm.1 (idx g.n (i + 1) j)
    let down := bm.1 (idx g.n i (if j = 0 then 1 else j - 1))
    let up := bm.1 (idx g.n i (j + 1))
    let nv := (g.uold (idx g.n i j) + g.coef * g.F (idx g.n i j) +
        g.r * (left + right + down + up)) / (1 + 4 * g.r)
    (upd bm.1 (idx g.n i j) nv, max bm.2 (abs (nv - bm.1 (idx g.n i j))))

/-- Spec formulation: sweep the first `k` grid points in flattened row-major
order (the flat point `m` is `(m % n, m / n)`). -/
def specFlat (g : GS) : (ℕ → ℚ) × ℚ → ℕ → (ℕ → ℚ) × ℚ
  | bm, 0 => bm
  | bm, k + 1 => specPoint g (specFlat g bm k) (k % g.n) (k / g.n)

/-- Spec formulation: one full sweep over all `n*n` grid points, starting
from a zero maximum change. -/
def specSweep (g : GS) (buf : ℕ → ℚ) : (ℕ → ℚ) × ℚ :=
  specFlat g (buf, 0) (g.n * g.n)

/-- Spec formulation: the relaxation loop, at most `k` sweeps with early exit
once a sweep's maximum change drops below `1e-6`. -/
def specLoop (g : GS) : ℕ → (ℕ → ℚ) → ℕ → ℚ
  | 0, buf => buf
  | k + 1, buf =>
    let bm := specSweep g buf
    if bm.2 < 1 / 1000000 then bm.1 else specLoop g k bm.1

/-- The spec-worded point update agrees with the source transcription. -/
lemma specPoint_eq (g : GS) (bm : (ℕ → ℚ) × ℚ) (i j : ℕ) :
    specPoint g bm i j = pointUp g bm i j := by
  unfold specPoint pointUp
  rcases Nat.eq_zero_or_pos i with hi | hi <;>
    rcases Nat.eq_zero_or_pos j with hj | hj
  · subst hi; subst hj; simp
  · subst hi
    simp [hj, Nat.pos_iff_ne_zero.mp hj]
  · subst hj
    simp [hi, Nat.pos_iff_ne_zero.mp hi]
  · simp [hi, hj, Nat.pos_iff_ne_zero.mp hi, Nat.pos_iff_ne_zero.mp hj]

/-- Sweeping one row in flat order agrees with the nested row loop. -/
lemma specFlat_row (g : GS) (hn : 1 ≤ g.n) (bm : (ℕ → ℚ) × ℚ) (j : ℕ)
    (H : specFlat g bm (j * g.n) = colStep g bm j) :
    ∀ i0, i0 ≤ g.n →
      specFlat g bm (j * g.n + i0) = rowStep g j (colStep g bm j) i0 := by
  intro i0
  induction i0 with
  | zero => intro _; simpa using H
  | succ i ih =>
    intro hi
    have hi' : i < g.n := hi
    show specPoint g (specFlat g bm (j * g.n + i))
      ((j * g.n + i) % g.n) ((j * g.n + i) / g.n) = _
    have hmod : (j * g.n + i) % g.n = i := by
      rw [Nat.mul_comm j g.n, Nat.mul_add_mod]
      exact Nat.mod_eq_of_lt hi'
    have hdiv : (j * g.n + i) / g.n = j := by
      rw [Nat.add_comm, Nat.add_mul_div_right _ _ (by omega : 0 < g.n),
        Nat.div_eq_of_lt hi', Nat.zero_add]
    rw [hmod, hdiv, ih (by omega), specPoint_eq]
    rfl

/-- Sweeping whole rows in flat order agrees with the nested column loop. -/
lemma specFlat_col (g : GS) (hn : 1 ≤ g.n) (bm : (ℕ → ℚ) × ℚ) :
    ∀ j, specFlat g bm (j * g.n) = colStep g bm j := by
  intro j
  induction j with
  | zero =>
    rw [Nat.zero_mul]
    rfl
  | succ j ih =>
    have h := specFlat_row g hn bm j ih g.n le_rfl
    rw [Nat.succ_mul]
    exact h

/-- The spec-worded sweep agrees with the source transcription. -/
lemma specSweep_eq (g : GS) (hn : 1 ≤ g.n) (buf : ℕ → ℚ) :
    specSweep g buf = sweep g buf := by
  unfold specSweep sweep
  exact specFlat_col g hn (buf, 0) g.n

/-- The spec-worded relaxation loop agrees with the source transcription. -/
lemma specLoop_eq (g : GS) (hn : 1 ≤ g.n) :
    ∀ k buf, specLoop g k buf = gsLoop g k buf := by
  intro k
  induction k with
  | zero => intro _; rfl
  | succ k ih =>
    intro buf
    show (if (specSweep g buf).2 < 1 / 1000000 then (specSweep g buf).1
      else specLoop g k (specSweep g buf).1) =
      (if (sweep g buf).2 < gsTol then (sweep g buf).1
        else gsLoop g k (sweep g buf).1)
    rw [specSweep_eq g hn, ih]
    rfl

/-- Claim C2: when `t < tmax`, `step()` of the 2D solver succeeds, commits
exactly the buffer produced by the spec-described relaxation (at most 100
Gauss-Seidel sweeps over a working copy of the field, early exit once the
maximum absolute per-point change in one sweep drops below `1e-6`, each
non-Dirichlet point updated to
`(u_old + coef*F + r*(left+right+down+up)) / (1+4r)` from the partially
updated buffer with the mirror substitution at `i = 0` / `j = 0`), and
advances `t` by `dt`. -/
theorem step2D_spec_relaxation (s : Solver2D) (hn : 1 ≤ s.n)
    (h : s.t < s.tmax) :
    step2D s =
      (true, { s with u := specLoop (mkGS s) 100 s.u, t := s.t + s.dt }) := by
  rw [step2D_eq, if_neg (not_le.mpr h), specLoop_eq (mkGS s) hn 100 s.u]

/-- Witness for C2: the fresh copper 2D solver with `n = 3`. -/
theorem step2D_spec_relaxation_witness :
    1 ≤ (mk2D COPPER 1 1 0 0 3).n ∧
    (mk2D COPPER 1 1 0 0 3).t < (mk2D COPPER 1 1 0 0 3).tmax ∧
    step2D (mk2D COPPER 1 1 0 0 3) = (true, { mk2D COPPER 1 1 0 0 3 with
      u := specLoop (mkGS (mk2D COPPER 1 1 0 0 3)) 100 (mk2D COPPER 1 1 0 0 3).u,
      t := (mk2D COPPER 1 1 0 0 3).t + (mk2D COPPER 1 1 0 0 3).dt }) := by
  exact ⟨by decide, by decide,
    step2D_spec_relaxation (mk2D COPPER 1 1 0 0 3) (by decide) (by decide)⟩

end Ensiie
